import Mathlib

/-!
# Verification of the Chase credit-card statement parser

A shallow embedding of `parser.py` (class `ChaseParser`) over `List Char`
strings.  A PDF document, as seen by the parser after `pdfplumber.open`
succeeds, is a list of pages; each page carries the optional text returned by
`page.extract_text()` and the tables returned by `page.extract_tables()`
(a table is a list of rows, a row a list of optional string cells).

Regular-expression searches are embedded as specialised leftmost-match
scanners that reproduce the backtracking behaviour of the concrete patterns
used in the source.  Case-insensitivity and whitespace are modelled at the
ASCII level, which covers the parser's pattern alphabet.  Python `float`
parsing is modelled exactly on the character alphabet the parser can produce
(digits, `.`, `-` after comma removal), with exact rational values.
-/

set_option autoImplicit false

/-! ## Python string primitives -/

/-- ASCII lower-casing, the relevant fragment of Python `str.lower` and of
`re.IGNORECASE` matching for the parser's patterns. -/
def asciiLower (c : Char) : Char :=
  if 'A' ≤ c ∧ c ≤ 'Z' then Char.ofNat (c.toNat + 32) else c

/-- Python `\s` / `str.strip` whitespace (ASCII fragment). -/
def isPySpace (c : Char) : Bool :=
  c = ' ' || c = '\t' || c = '\n' || c = '\r' || c = '\x0b' || c = '\x0c'

/-- Python `str.strip()`. -/
def pyStrip (l : List Char) : List Char :=
  ((l.dropWhile isPySpace).reverse.dropWhile isPySpace).reverse

/-- Python `str.lower()` (ASCII fragment). -/
def pyLower (l : List Char) : List Char := l.map asciiLower

/-- String literal to character list. -/
def s2l (s : String) : List Char := s.toList

/-- Case-insensitive literal match: if `pat` (given lower-case) is a prelude of
`l` up to ASCII case, return the rest of `l`. -/
def stripCi : List Char → List Char → Option (List Char)
  | [], l => some l
  | _ :: _, [] => none
  | p :: ps, c :: cs => if asciiLower c = p then stripCi ps cs else none

/-- Plain (case-sensitive) literal match at the front of a string. -/
def startsWith : List Char → List Char → Bool
  | [], _ => true
  | _ :: _, [] => false
  | p :: ps, c :: cs => p = c && startsWith ps cs

/-- Plain substring test (used to state counterexamples). -/
def hasSub (pat : List Char) : List Char → Bool
  | [] => startsWith pat []
  | l@(_ :: rest) => startsWith pat l || hasSub pat rest

/-- Case-insensitive substring test. -/
def containsCi (pat : List Char) : List Char → Bool
  | [] => (stripCi pat []).isSome
  | l@(_ :: rest) => (stripCi pat l).isSome || containsCi pat rest

/-- Position scan of `re.search`: try the matcher `f` at every suffix, leftmost
first, as Python's regex engine tries every start offset in order. -/
def scanFor {α : Type} (f : List Char → Option α) : List Char → Option α
  | [] => f []
  | l@(_ :: rest) =>
    match f l with
    | some a => some a
    | none => scanFor f rest

/-! ## Python `float` on the parser's alphabet -/

/-- Value of a digit string. -/
def digitsVal (l : List Char) : Nat :=
  l.foldl (fun a c => 10 * a + (c.toNat - 48)) 0

/-- Unsigned part of Python `float` parsing: `digits+ (. digits*)?` or
`. digits+`; anything else fails.  The value is the exact decimal
`intpart.fracpart`. -/
def pyFloatCore (l : List Char) : Option Rat :=
  let ip := l.takeWhile (fun c => c ≠ '.')
  match l.drop ip.length with
  | [] =>
    if !ip.isEmpty && ip.all Char.isDigit then some (mkRat (digitsVal ip) 1)
    else none
  | '.' :: frac =>
    if (!ip.isEmpty || !frac.isEmpty) && ip.all Char.isDigit
        && frac.all Char.isDigit then
      some (mkRat (digitsVal ip * 10 ^ frac.length + digitsVal frac) (10 ^ frac.length))
    else none
  | _ => none

/-- Python `float(str)` restricted to the characters the parser can feed it
(digits, period, minus); raises `ValueError` ↦ `none`. -/
def pyFloat (l : List Char) : Option Rat :=
  match l with
  | '-' :: rest => (pyFloatCore rest).map Rat.neg
  | _ => pyFloatCore l

/-- Python `str.replace(",", "")`. -/
def stripCommas (l : List Char) : List Char := l.filter (fun c => c ≠ ',')

/-! ## `_extract_card_last_4` -/

/-- Four consecutive digits at the front of the string (the captured group
`(\d{4})` of the card patterns). -/
def grab4Digits : List Char → Option (List Char)
  | a :: b :: c :: d :: _ =>
    if a.isDigit && b.isDigit && c.isDigit && d.isDigit then some [a, b, c, d]
    else none
  | _ => none

/-- Matcher for `\*{4}(\d{4})` at one position. -/
def star4At (l : List Char) : Option (List Char) :=
  match l with
  | a :: b :: c :: d :: rest =>
    if a = '*' && b = '*' && c = '*' && d = '*' then grab4Digits rest else none
  | _ => none

/-- Matcher for `<literal>(\d{4})` at one position, literal case-insensitive. -/
def lit4At (pat : List Char) (l : List Char) : Option (List Char) :=
  (stripCi pat l).bind grab4Digits

/-- Literal of `ending in (\d{4})`. -/
def ei_lit : List Char := ['e', 'n', 'd', 'i', 'n', 'g', ' ', 'i', 'n', ' ']

/-- Literal of `card ending (\d{4})`. -/
def ce_lit : List Char :=
  ['c', 'a', 'r', 'd', ' ', 'e', 'n', 'd', 'i', 'n', 'g', ' ']

/-- Literal of `account ending (\d{4})`. -/
def ae_lit : List Char :=
  ['a', 'c', 'c', 'o', 'u', 'n', 't', ' ', 'e', 'n', 'd', 'i', 'n', 'g', ' ']

namespace Chase

/-- Embedding of `ChaseParser._extract_card_last_4`: the four patterns are tried in order,
each with `re.search` (leftmost match) and `re.IGNORECASE`; the first match's
captured group is returned, else the empty string. -/
def extract_card_last_4 (text : List Char) : List Char :=
  match scanFor star4At text with
  | some g => g
  | none =>
    match scanFor (lit4At ei_lit) text with
    | some g => g
    | none =>
      match scanFor (lit4At ce_lit) text with
      | some g => g
      | none =>
        match scanFor (lit4At ae_lit) text with
        | some g => g
        | none => []

end Chase

/-! ## `_extract_total_balance` -/

/-- The word the three balance patterns end with. -/
def bal_word : List Char := ['b', 'a', 'l', 'a', 'n', 'c', 'e']

/-- Literal of `total balance[:\s]+...`. -/
def tb_lit : List Char := ['t', 'o', 't', 'a', 'l', ' '] ++ bal_word

/-- Literal of `current balance[:\s]+...`. -/
def cb_lit : List Char := ['c', 'u', 'r', 'r', 'e', 'n', 't', ' '] ++ bal_word

/-- The `[:\s]` class of the scalar-field patterns. -/
def isSepChar (c : Char) : Bool := c = ':' || isPySpace c

/-- The captured group `([\d,]+\.?\d*)` at one position: a maximal nonempty
run of digits/commas, optionally a period followed by a maximal digit run
(each sub-pattern is greedy and their alphabets are disjoint, so the match
is maximal-munch with no backtracking). -/
def balGroupAt (l : List Char) : Option (List Char) :=
  let dc := l.takeWhile (fun c => c.isDigit || c = ',')
  if dc = [] then none
  else
    match l.drop dc.length with
    | '.' :: r2 => some (dc ++ '.' :: r2.takeWhile Char.isDigit)
    | _ => some dc

/-- Matcher for `<literal>[:\s]+\$?([\d,]+\.?\d*)` at one position.  The
`[:\s]+` run is maximal (no character of the following sub-patterns is in
`[:\s]`, so backtracking it can never help) and `\$?` takes a dollar sign
when present. -/
def balanceAt (pat : List Char) (l : List Char) : Option (List Char) :=
  (stripCi pat l).bind fun r =>
    let sep := r.takeWhile isSepChar
    if sep = [] then none
    else
      match r.drop sep.length with
      | '$' :: r2 => balGroupAt r2
      | r2 => balGroupAt r2

namespace Chase

/-- The candidate-pattern loop of `ChaseParser._extract_total_balance`:
first pattern whose search matches and whose captured group, after comma
removal, parses as a float wins; a parse failure falls through to the next
pattern; no winner yields `0.0`. -/
def balanceFromPatterns : List (List Char) → List Char → Rat
  | [], _ => 0
  | p :: ps, t =>
    match scanFor (balanceAt p) t with
    | none => balanceFromPatterns ps t
    | some g =>
      match pyFloat (stripCommas g) with
      | some v => v
      | none => balanceFromPatterns ps t

/-- Embedding of `ChaseParser._extract_total_balance`. -/
def extract_total_balance (t : List Char) : Rat :=
  balanceFromPatterns [tb_lit, cb_lit, bal_word] t

end Chase

/-! ## `_extract_billing_cycle` -/

/-- Literal of `statement period[:\s]+...`. -/
def sp_lit : List Char := s2l "statement period"

/-- Literal of `billing period[:\s]+...`. -/
def bp_lit : List Char := s2l "billing period"

/-- Literal of the generic `period[:\s]+...`. -/
def p_lit : List Char := s2l "period"

/-- Characters allowed in the captured groups `[^-\n]`. -/
def isG1Char (c : Char) : Bool := !(c = '-' || c = '\n')

/-- The `\s*-\s*([^-\n]+)` tail of the billing-cycle patterns, tried after a
candidate end of the first (lazy) group: a maximal whitespace run, the
hyphen, then greedy `\s*` followed by a nonempty greedy `([^-\n]+)` — when
the character after the second whitespace run cannot start the group, the
engine gives one whitespace character back to the group. -/
def group2After (l : List Char) : Option (List Char) :=
  let w1 := l.takeWhile isPySpace
  match l.drop w1.length with
  | '-' :: r =>
    let w2 := r.takeWhile isPySpace
    let g2 := (r.drop w2.length).takeWhile isG1Char
    if g2 ≠ [] then some g2
    else if w2 ≠ [] then some ((r.drop (w2.length - 1)).takeWhile isG1Char)
    else none
  | _ => none

/-- Lazy growth of the first captured group `([^-\n]+?)`: extend one
character at a time (never over `-` or `\n`) and try the rest of the pattern
after each extension. -/
def g1Search : List Char → List Char → Option (List Char × List Char)
  | _, [] => none
  | accRev, c :: rest =>
    if c = '-' || c = '\n' then none
    else
      match group2After rest with
      | some g2 => some ((c :: accRev).reverse, g2)
      | none => g1Search (c :: accRev) rest

/-- Backtracking of the greedy `[:\s]+` separator: try the maximal run
first, then give characters back one at a time down to a single one. -/
def sepThenGroups (r : List Char) : Nat → Option (List Char × List Char)
  | 0 => none
  | j + 1 =>
    match g1Search [] (r.drop (j + 1)) with
    | some res => some res
    | none => sepThenGroups r j

/-- Matcher for `<literal>[:\s]+([^-\n]+?)\s*-\s*([^-\n]+)` at one
position. -/
def periodAt (pat : List Char) (l : List Char) : Option (List Char × List Char) :=
  (stripCi pat l).bind fun r =>
    sepThenGroups r (r.takeWhile isSepChar).length

namespace Chase

/-- The candidate-pattern loop of `ChaseParser._extract_billing_cycle`,
rendering the first match as `f"{g1.strip()} - {g2.strip()}"`. -/
def periodFromPatterns : List (List Char) → List Char → List Char
  | [], _ => []
  | p :: ps, t =>
    match scanFor (periodAt p) t with
    | some (g1, g2) => pyStrip g1 ++ ' ' :: '-' :: ' ' :: pyStrip g2
    | none => periodFromPatterns ps t

/-- Embedding of `ChaseParser._extract_billing_cycle`. -/
def extract_billing_cycle (t : List Char) : List Char :=
  periodFromPatterns [sp_lit, bp_lit, p_lit] t

end Chase

/-! ## `_extract_due_date` -/

/-- Literal of `due date[:\s]+...`. -/
def dd_lit : List Char := s2l "due date"

/-- Literal of `payment due[:\s]+...`. -/
def pd_lit : List Char := s2l "payment due"

/-- Literal of the generic `due[:\s]+...`. -/
def du_lit : List Char := s2l "due"

/-- The possible splits of `\d{1,2}` at the front of a string, in greedy
(two digits first) backtracking order. -/
def twoDigitSplits : List Char → List (List Char × List Char)
  | a :: b :: rest =>
    (if a.isDigit && b.isDigit then [([a, b], rest)] else []) ++
      (if a.isDigit then [([a], b :: rest)] else [])
  | [a] => if a.isDigit then [([a], [])] else []
  | [] => []

/-- Matcher for the captured group `(\d{1,2}/\d{1,2}/\d{4})` at one
position. -/
def slashDateAt (l : List Char) : Option (List Char) :=
  (twoDigitSplits l).findSome? fun p1 =>
    match p1.2 with
    | '/' :: r2 =>
      (twoDigitSplits r2).findSome? fun p2 =>
        match p2.2 with
        | '/' :: r3 => (grab4Digits r3).map fun y => p1.1 ++ '/' :: p2.1 ++ '/' :: y
        | _ => none
    | _ => none

/-- Matcher for `<literal>[:\s]+(\d{1,2}/\d{1,2}/\d{4})` at one position
(the group starts with a digit, which is not in `[:\s]`, so the separator
run is maximal with no useful backtracking). -/
def dueAt (pat : List Char) (l : List Char) : Option (List Char) :=
  (stripCi pat l).bind fun r =>
    let sep := r.takeWhile isSepChar
    if sep = [] then none else slashDateAt (r.drop sep.length)

namespace Chase

/-- The candidate-pattern loop of `ChaseParser._extract_due_date`. -/
def dueFromPatterns : List (List Char) → List Char → List Char
  | [], _ => []
  | p :: ps, t =>
    match scanFor (dueAt p) t with
    | some d => d
    | none => dueFromPatterns ps t

/-- Embedding of `ChaseParser._extract_due_date`. -/
def extract_due_date (t : List Char) : List Char :=
  dueFromPatterns [dd_lit, pd_lit, du_lit] t

end Chase

/-! ## Documents, tables, transactions -/

/-- A table cell as returned by `pdfplumber`: a string or `None`. -/
abbrev Cell := Option (List Char)

/-- A table row. -/
abbrev Row := List Cell

/-- A table: a list of rows. -/
abbrev Table := List Row

/-- One PDF page: the text `page.extract_text()` yields (or `None`) and the
tables `page.extract_tables()` yields. -/
structure Page where
  text : Option (List Char)
  tables : List Table

/-- A successfully opened PDF document. -/
structure Pdf where
  pages : List Page

/-- The transaction dictionary `{"Date", "Description", "Amount"}` built by
`_extract_transactions`. -/
structure Transaction where
  date : List Char
  description : List Char
  amount : Rat
deriving DecidableEq, Repr

/-- The `StatementData` pydantic model. -/
structure StatementData where
  issuer : List Char
  card_last_4 : List Char
  billing_cycle : List Char
  due_date : List Char
  total_balance : Rat
  transactions : List Transaction
deriving DecidableEq, Repr

/-- Embedding of `str(cell).strip() if cell else ""`: `None` and the empty string are
falsy and become `""`; any other string is stripped. -/
def cellStr : Cell → List Char
  | none => []
  | some s => if s = [] then [] else pyStrip s

/-- The header-date blacklist `['date', 'transaction date', '']`. -/
def hdrDates : List (List Char) := [s2l "date", s2l "transaction date", []]

/-- The header-description blacklist `['description', 'merchant', '']`. -/
def hdrDescs : List (List Char) := [s2l "description", s2l "merchant", []]

/-- The header-amount blacklist `['amount', '']`. -/
def hdrAmts : List (List Char) := [s2l "amount", []]

/-- The character class kept by `re.sub(r'[^\d.,\-]', '', amount)`. -/
def keepAmountChar (c : Char) : Bool :=
  c.isDigit || c = '.' || c = ',' || c = '-'

/-- Embedding of `re.sub(r'[^\d.,\-]', '', amount)` followed by `.replace(',', '')`. -/
def normalizeAmount (s : List Char) : List Char :=
  (s.filter keepAmountChar).filter (fun c => c ≠ ',')

/-- The body of the row loop of `ChaseParser._extract_transactions`: rows
with fewer than three cells are skipped, header/blank rows are skipped, and
a row whose normalized amount does not parse as a float is skipped. -/
def processRow : Row → Option Transaction
  | c0 :: c1 :: c2 :: _ =>
    let date := cellStr c0
    let description := cellStr c1
    let amount := cellStr c2
    if pyLower date ∈ hdrDates ∨ pyLower description ∈ hdrDescs ∨
        pyLower amount ∈ hdrAmts then none
    else if date = [] ∨ description = [] ∨ amount = [] then none
    else
      match pyFloat (normalizeAmount amount) with
      | some v => some ⟨date, description, v⟩
      | none => none
  | _ => none

/-- The row loop over one table, in row order. -/
def rowsToTransactions (rows : List Row) : List Transaction :=
  rows.filterMap processRow

/-- The table loop of `_extract_transactions`: tables with fewer than two
rows (`if not table or len(table) < 2`) are skipped whole; accepted rows are
appended in table order then row order. -/
def tablesToTransactions : List Table → List Transaction
  | [] => []
  | t :: ts =>
    (if 2 ≤ t.length then rowsToTransactions t else []) ++ tablesToTransactions ts

/-- The message of the `IndexError` raised by `pdf.pages[0]` on a document
with no pages. -/
def indexErrorMsg : List Char := s2l "IndexError: list index out of range"

namespace Chase

/-- Embedding of `ChaseParser._extract_transactions`: reads `pdf.pages[0]` (raising
`IndexError` when the page list is empty) and filters the tables of that
first page. -/
def extract_transactions (d : Pdf) : Except (List Char) (List Transaction) :=
  match d.pages with
  | [] => Except.error indexErrorMsg
  | p :: _ => Except.ok (tablesToTransactions p.tables)

end Chase

/-- One step of the text-accumulation loop of `_extract_text_from_pdf`:
`text += page_text + "\n"` when `page_text` is truthy. -/
def textStep (acc : List Char) (p : Page) : List Char :=
  match p.text with
  | some t => if t = [] then acc else acc ++ t ++ ['\n']
  | none => acc

namespace Chase

/-- Embedding of `ChaseParser._extract_text_from_pdf`. -/
def extract_text_from_pdf (d : Pdf) : List Char :=
  d.pages.foldl textStep []

/-- Embedding of `ChaseParser.parse`: extract the full text, the four scalar fields from
that text, and the transactions from the document, then assemble the
`StatementData`.  The `IndexError` of the transaction step propagates. -/
def parse (d : Pdf) : Except (List Char) StatementData :=
  let text := extract_text_from_pdf d
  let card := extract_card_last_4 text
  let billing := extract_billing_cycle text
  let due := extract_due_date text
  let balance := extract_total_balance text
  match extract_transactions d with
  | Except.error e => Except.error e
  | Except.ok txs =>
    Except.ok
      { issuer := s2l "Chase", card_last_4 := card, billing_cycle := billing,
        due_date := due, total_balance := balance, transactions := txs }

end Chase

/-! ## Helper lemmas -/

theorem scanFor_some {α : Type} (f : List Char → Option α) (l : List Char)
    (a : α) (h : scanFor f l = some a) : ∃ l', f l' = some a := by
  induction l with
  | nil => exact ⟨[], h⟩
  | cons c rest ih =>
    simp only [scanFor] at h
    cases hf : f (c :: rest) with
    | some b => rw [hf] at h; exact ⟨c :: rest, hf ▸ h⟩
    | none => rw [hf] at h; exact ih h

theorem scanFor_cons_none {α : Type} (f : List Char → Option α) (c : Char)
    (l : List Char) (h : f (c :: l) = none) :
    scanFor f (c :: l) = scanFor f l := by
  simp only [scanFor, h]

theorem processRow_bad_amount (r : Row)
    (h : pyFloat (normalizeAmount (cellStr ((r.get? 2).join))) = none) :
    processRow r = none := by
  match r with
  | [] => rfl
  | [_] => rfl
  | [_, _] => rfl
  | c0 :: c1 :: c2 :: rest =>
    have hc : ((c0 :: c1 :: c2 :: rest).get? 2).join = c2 := rfl
    rw [hc] at h
    simp only [processRow]
    split_ifs
    · rfl
    · rfl
    · rw [h]

theorem processRow_some (row : Row) (tx : Transaction)
    (h : processRow row = some tx) :
    pyLower tx.date ∉ hdrDates ∧ pyLower tx.description ∉ hdrDescs ∧
      tx.date ≠ [] ∧ tx.description ≠ [] ∧
      ∃ s, pyFloat s = some tx.amount := by
  match row with
  | [] => exact absurd h (by simp [processRow])
  | [_] => exact absurd h (by simp [processRow])
  | [_, _] => exact absurd h (by simp [processRow])
  | c0 :: c1 :: c2 :: rest =>
    simp only [processRow] at h
    split_ifs at h with h1 h2
    cases hm : pyFloat (normalizeAmount (cellStr c2)) with
    | none => rw [hm] at h; cases h
    | some v =>
      rw [hm] at h
      injection h with h'
      subst h'
      push_neg at h1 h2
      exact ⟨h1.1, h1.2.1, h2.1, h2.2.1, normalizeAmount (cellStr c2), hm⟩

theorem mem_tablesToTransactions (ts : List Table) (tx : Transaction)
    (h : tx ∈ tablesToTransactions ts) : ∃ row, processRow row = some tx := by
  induction ts with
  | nil => cases h
  | cons t ts ih =>
    simp only [tablesToTransactions, List.mem_append] at h
    rcases h with h | h
    · by_cases h2 : 2 ≤ t.length
      · rw [if_pos h2] at h
        obtain ⟨row, -, hrow⟩ :=
          List.mem_filterMap.mp (h : tx ∈ rowsToTransactions t)
        exact ⟨row, hrow⟩
      · rw [if_neg h2] at h; cases h
    · exact ih h

/-! ## Claim C1 -/

/-- Counterexample to claim C1: on a document that opens successfully but has
no pages, `_extract_transactions` evaluates `pdf.pages[0]` and raises an
`IndexError` instead of returning an empty sequence. -/
theorem C1_counterexample :
    Chase.extract_transactions { pages := [] } = Except.error indexErrorMsg ∧
    (Except.error indexErrorMsg :
        Except (List Char) (List Transaction)) ≠ Except.ok [] :=
  ⟨rfl, fun h => Except.noConfusion h⟩

/-- Claim C1 as amended: for every document whose page index 0 exists but
contains no tables, `_extract_transactions` returns the empty sequence
without error; a document with no pages instead raises an `IndexError` from
`pdf.pages[0]`. -/
theorem C1_amended :
    (∀ (d : Pdf) (p : Page) (rest : List Page),
      d.pages = p :: rest → p.tables = [] →
      Chase.extract_transactions d = Except.ok []) ∧
    (∀ d : Pdf, d.pages = [] →
      Chase.extract_transactions d = Except.error indexErrorMsg) := by
  constructor
  · intro d p rest hp ht
    simp [Chase.extract_transactions, hp, ht, tablesToTransactions]
  · intro d hd
    simp [Chase.extract_transactions, hd]

/-- Witness for C1_amended at concrete documents. -/
theorem C1_witness :
    Chase.extract_transactions { pages := [⟨none, []⟩] } = Except.ok [] ∧
    Chase.extract_transactions { pages := [] } = Except.error indexErrorMsg :=
  ⟨C1_amended.1 { pages := [⟨none, []⟩] } ⟨none, []⟩ [] rfl rfl,
   C1_amended.2 { pages := [] } rfl⟩

/-! ## Claim C2 -/

/-- Amount normalization as the claim words it: every character that is not
a digit, period, comma, or a leading minus sign is removed (so a minus sign
is kept only at the head of the cell). -/
def claimNormalizeAmount (s : List Char) : List Char :=
  match s with
  | '-' :: rest => '-' :: rest.filter (fun c => c.isDigit || c = '.' || c = ',')
  | _ => s.filter (fun c => c.isDigit || c = '.' || c = ',')

/-- Counterexample to claim C2: the code's `re.sub(r'[^\d.,\-]', '', ...)`
keeps a minus sign anywhere, not only in leading position.  For the amount
cell `"5-0"` the code keeps `"5-0"`, whose float parse fails, so the row is
discarded — while the claim's normalization yields `"50"`, which parses as
`50`, so under the claim the row would be accepted. -/
theorem C2_counterexample :
    processRow [some (s2l "01/05/2024"), some (s2l "Shop"), some (s2l "5-0")]
      = none ∧
    pyFloat (stripCommas (claimNormalizeAmount (s2l "5-0"))) = some (mkRat 50 1) := by
  exact ⟨by decide, by decide⟩

/-- Claim C2 as amended: for every accepted table row, the amount cell is
normalized by removing every character that is not a digit, period, comma,
or minus sign (minus signs are kept wherever they occur), then removing
commas, then parsing as a decimal; a row whose normalized amount fails to
parse is discarded.  In particular `"$1,234.56"` yields `1234.56` and
`"-$50.00"` yields `-50.00`. -/
theorem C2_amended :
    (∀ (c0 c1 c2 : Cell) (rest : Row),
      pyFloat (normalizeAmount (cellStr c2)) = none →
      processRow (c0 :: c1 :: c2 :: rest) = none) ∧
    (∀ (c0 c1 c2 : Cell) (rest : Row) (tx : Transaction),
      processRow (c0 :: c1 :: c2 :: rest) = some tx →
      pyFloat (normalizeAmount (cellStr c2)) = some tx.amount) ∧
    processRow [some (s2l "01/05/2024"), some (s2l "Coffee"), some (s2l "$1,234.56")]
      = some ⟨s2l "01/05/2024", s2l "Coffee", mkRat 123456 100⟩ ∧
    processRow [some (s2l "01/05/2024"), some (s2l "Coffee"), some (s2l "-$50.00")]
      = some ⟨s2l "01/05/2024", s2l "Coffee", mkRat (-50) 1⟩ := by
  refine ⟨?_, ?_, by decide, by decide⟩
  · intro c0 c1 c2 rest h
    simp only [processRow]
    split_ifs
    · rfl
    · rfl
    · rw [h]
  · intro c0 c1 c2 rest tx h
    simp only [processRow] at h
    split_ifs at h
    cases hm : pyFloat (normalizeAmount (cellStr c2)) with
    | none => rw [hm] at h; cases h
    | some v => rw [hm] at h; injection h with h'; subst h'; rfl

/-- Witness for C2_amended: a non-numeric amount is discarded, an accepted
row's amount is the parse of its normalized cell. -/
theorem C2_witness :
    processRow [some (s2l "01/05/2024"), some (s2l "Shop"), some (s2l "N/A")]
      = none ∧
    pyFloat (normalizeAmount (cellStr (some (s2l "-$50.00")))) = some (mkRat (-50) 1) :=
  ⟨C2_amended.1 (some (s2l "01/05/2024")) (some (s2l "Shop")) (some (s2l "N/A"))
      [] (by decide),
   C2_amended.2.1 (some (s2l "01/05/2024")) (some (s2l "Coffee"))
      (some (s2l "-$50.00")) []
      ⟨s2l "01/05/2024", s2l "Coffee", mkRat (-50) 1⟩ (by decide)⟩

/-! ## Claim C10 -/

/-- The truthiness test `if page_text:` applied to one page. -/
def truthyText (p : Page) : Option (List Char) :=
  match p.text with
  | some t => if t = [] then none else some t
  | none => none

/-- The page texts that survive `if page_text:`, in page order. -/
def truthyTexts (d : Pdf) : List (List Char) :=
  d.pages.filterMap truthyText

/-- Joining with newline separators, as the claim words the result (a
newline between consecutive texts, none at the end). -/
def joinWithNewlineSep : List (List Char) → List Char
  | [] => []
  | [t] => t
  | t :: ts => t ++ '\n' :: joinWithNewlineSep ts

theorem foldl_textStep (l : List Page) :
    ∀ acc, l.foldl textStep acc
      = acc ++ ((l.filterMap truthyText).map (fun t => t ++ ['\n'])).flatten := by
  induction l with
  | nil => intro acc; simp
  | cons p l ih =>
    intro acc
    simp only [List.foldl_cons]
    rw [ih]
    cases hp : p.text with
    | none => simp [textStep, truthyText, hp]
    | some t =>
      by_cases ht : t = []
      · simp [textStep, truthyText, hp, ht]
      · simp [textStep, truthyText, hp, ht, List.append_assoc]

/-- Counterexample to claim C10: the code appends `page_text + "\n"` for
each non-empty page text, so every kept text is newline-terminated; joining
with newline separators would leave no trailing newline.  On a one-page
document with text `"hi"` the code yields `"hi\n"`, not `"hi"`. -/
theorem C10_counterexample :
    Chase.extract_text_from_pdf ⟨[⟨some (s2l "hi"), []⟩]⟩ = s2l "hi" ++ ['\n'] ∧
    joinWithNewlineSep (truthyTexts ⟨[⟨some (s2l "hi"), []⟩]⟩) = s2l "hi" ∧
    s2l "hi" ++ ['\n'] ≠ s2l "hi" :=
  ⟨by decide, by decide, by decide⟩

/-- Claim C10 as amended: full-text extraction returns the concatenation of
the non-empty page texts, each followed (terminated, not separated) by a
newline, skipping pages whose extraction yields no text; an empty document
yields the empty string. -/
theorem C10_amended :
    (∀ d : Pdf, Chase.extract_text_from_pdf d
      = ((truthyTexts d).map (fun t => t ++ ['\n'])).flatten) ∧
    Chase.extract_text_from_pdf ⟨[]⟩ = [] := by
  refine ⟨fun d => ?_, rfl⟩
  simpa using foldl_textStep d.pages []

/-! ## Claim C5 -/

/-- Claim C5: a row whose trimmed date cell is (case-insensitively) one of
`{"date", "transaction date", ""}` or whose trimmed description cell is one
of `{"description", "merchant", ""}` is suppressed and never contributes a
transaction; in particular the header row `["Date", "Description", "Amount"]`
and the row `["DATE", "desc", ""]` are dropped wherever they occur. -/
theorem C5_header_suppression :
    (∀ row : Row,
      pyLower (cellStr ((row.get? 0).join)) ∈ hdrDates ∨
        pyLower (cellStr ((row.get? 1).join)) ∈ hdrDescs →
      processRow row = none) ∧
    (∀ (d : Pdf) (txs : List Transaction) (tx : Transaction),
      Chase.extract_transactions d = Except.ok txs → tx ∈ txs →
      pyLower tx.date ∉ hdrDates ∧ pyLower tx.description ∉ hdrDescs) ∧
    rowsToTransactions
      [[some (s2l "Date"), some (s2l "Description"), some (s2l "Amount")],
       [some (s2l "01/05/2024"), some (s2l "Coffee Shop"), some (s2l "$4.50")],
       [some (s2l "DATE"), some (s2l "desc"), some []]]
      = [⟨s2l "01/05/2024", s2l "Coffee Shop", mkRat 45 10⟩] := by
  refine ⟨?_, ?_, by decide⟩
  · intro row h
    match row with
    | [] => rfl
    | [_] => rfl
    | [_, _] => rfl
    | c0 :: c1 :: c2 :: rest =>
      have h' : pyLower (cellStr c0) ∈ hdrDates ∨ pyLower (cellStr c1) ∈ hdrDescs := h
      simp only [processRow]
      rw [if_pos (h'.elim Or.inl (fun hb => Or.inr (Or.inl hb)))]
  · intro d txs tx hok hmem
    cases hp : d.pages with
    | nil => rw [Chase.extract_transactions, hp] at hok; cases hok
    | cons p rest =>
      rw [Chase.extract_transactions, hp] at hok
      injection hok with hok
      subst hok
      obtain ⟨row, hrow⟩ := mem_tablesToTransactions _ _ hmem
      have := processRow_some row tx hrow
      exact ⟨this.1, this.2.1⟩

/-- Witness for C5_header_suppression on concrete inputs. -/
theorem C5_witness :
    processRow [some (s2l "DATE"), some (s2l "desc"), some []] = none ∧
    (pyLower (⟨s2l "01/05/2024", s2l "Coffee Shop", mkRat 45 10⟩ :
        Transaction).date ∉ hdrDates ∧
      pyLower (⟨s2l "01/05/2024", s2l "Coffee Shop", mkRat 45 10⟩ :
        Transaction).description ∉ hdrDescs) :=
  ⟨C5_header_suppression.1 [some (s2l "DATE"), some (s2l "desc"), some []]
      (Or.inl (by decide)),
   C5_header_suppression.2.1
      ⟨[⟨none, [[[some (s2l "Date"), some (s2l "Description"), some (s2l "Amount")],
          [some (s2l "01/05/2024"), some (s2l "Coffee Shop"), some (s2l "$4.50")]]]⟩]⟩
      [⟨s2l "01/05/2024", s2l "Coffee Shop", mkRat 45 10⟩]
      ⟨s2l "01/05/2024", s2l "Coffee Shop", mkRat 45 10⟩
      rfl (by decide)⟩

/-! ## Claim C6 -/

/-- Claim C6: within the row sequence fed to the row loop, a row whose third
cell is non-numeric after normalization produces no transaction, and the
transactions of the remaining rows are exactly those produced when the bad
row is absent from the sequence (row failures are isolated and never abort
the batch); `"N/A"` normalizes to `""`, which fails to parse. -/
theorem C6_row_isolation :
    (∀ (pre suf : List Row) (r : Row),
      pyFloat (normalizeAmount (cellStr ((r.get? 2).join))) = none →
      processRow r = none ∧
        rowsToTransactions (pre ++ r :: suf) = rowsToTransactions (pre ++ suf)) ∧
    normalizeAmount (cellStr (some (s2l "N/A"))) = [] ∧
    rowsToTransactions
      [[some (s2l "01/05/2024"), some (s2l "Coffee Shop"), some (s2l "$4.50")],
       [some (s2l "01/06/2024"), some (s2l "Garbage"), some (s2l "N/A")],
       [some (s2l "01/10/2024"), some (s2l "Grocery"), some (s2l "$88.20")]]
      = rowsToTransactions
      [[some (s2l "01/05/2024"), some (s2l "Coffee Shop"), some (s2l "$4.50")],
       [some (s2l "01/10/2024"), some (s2l "Grocery"), some (s2l "$88.20")]] := by
  refine ⟨?_, by decide, by decide⟩
  intro pre suf r h
  have hnone := processRow_bad_amount r h
  refine ⟨hnone, ?_⟩
  simp [rowsToTransactions, List.filterMap_append, List.filterMap_cons, hnone]

/-- Witness for C6_row_isolation at a concrete bad row. -/
theorem C6_witness :
    processRow [some (s2l "01/06/2024"), some (s2l "Garbage"), some (s2l "N/A")]
      = none ∧
    rowsToTransactions
      [[some (s2l "01/05/2024"), some (s2l "Coffee Shop"), some (s2l "$4.50")],
       [some (s2l "01/06/2024"), some (s2l "Garbage"), some (s2l "N/A")]]
      = rowsToTransactions
      [[some (s2l "01/05/2024"), some (s2l "Coffee Shop"), some (s2l "$4.50")]] :=
  C6_row_isolation.1
    [[some (s2l "01/05/2024"), some (s2l "Coffee Shop"), some (s2l "$4.50")]] []
    [some (s2l "01/06/2024"), some (s2l "Garbage"), some (s2l "N/A")] (by decide)

/-! ## Claim C7 -/

theorem grab4Digits_shape (l g : List Char) (h : grab4Digits l = some g) :
    g.length = 4 ∧ g.all Char.isDigit = true := by
  match l with
  | [] => cases h
  | [_] => cases h
  | [_, _] => cases h
  | [_, _, _] => cases h
  | a :: b :: c :: d :: rest =>
    simp only [grab4Digits] at h
    split_ifs at h with hd
    injection h with h'
    subst h'
    simp only [List.all_cons, List.all_nil, Bool.and_true]
    exact ⟨rfl, by simpa [and_assoc] using hd⟩

theorem star4At_shape (l g : List Char) (h : star4At l = some g) :
    g.length = 4 ∧ g.all Char.isDigit = true := by
  match l with
  | [] => cases h
  | [_] => cases h
  | [_, _] => cases h
  | [_, _, _] => cases h
  | a :: b :: c :: d :: rest =>
    simp only [star4At] at h
    split_ifs at h
    exact grab4Digits_shape rest g h

theorem lit4At_shape (pat l g : List Char) (h : lit4At pat l = some g) :
    g.length = 4 ∧ g.all Char.isDigit = true := by
  obtain ⟨r, -, hg⟩ := Option.bind_eq_some.mp h
  exact grab4Digits_shape r g hg

theorem extract_card_shape (t : List Char) :
    Chase.extract_card_last_4 t = [] ∨
      ((Chase.extract_card_last_4 t).length = 4 ∧
        (Chase.extract_card_last_4 t).all Char.isDigit = true) := by
  unfold Chase.extract_card_last_4
  cases h1 : scanFor star4At t with
  | some g =>
    obtain ⟨l', hl⟩ := scanFor_some _ _ _ h1
    exact Or.inr (star4At_shape l' g hl)
  | none =>
    cases h2 : scanFor (lit4At ei_lit) t with
    | some g =>
      obtain ⟨l', hl⟩ := scanFor_some _ _ _ h2
      exact Or.inr (lit4At_shape ei_lit l' g hl)
    | none =>
      cases h3 : scanFor (lit4At ce_lit) t with
      | some g =>
        obtain ⟨l', hl⟩ := scanFor_some _ _ _ h3
        exact Or.inr (lit4At_shape ce_lit l' g hl)
      | none =>
        cases h4 : scanFor (lit4At ae_lit) t with
        | some g =>
          obtain ⟨l', hl⟩ := scanFor_some _ _ _ h4
          exact Or.inr (lit4At_shape ae_lit l' g hl)
        | none => exact Or.inl rfl

/-- Claim C7: for every document on which `parse` succeeds, the
`card_last_4` field of the produced `StatementData` is either the empty
string or a string of exactly 4 digits. -/
theorem C7_card_last4_shape (d : Pdf) (sd : StatementData)
    (h : Chase.parse d = Except.ok sd) :
    sd.card_last_4 = [] ∨
      (sd.card_last_4.length = 4 ∧ sd.card_last_4.all Char.isDigit = true) := by
  have hcard : sd.card_last_4
      = Chase.extract_card_last_4 (Chase.extract_text_from_pdf d) := by
    unfold Chase.parse at h
    cases ht : Chase.extract_transactions d with
    | error e => rw [ht] at h; cases h
    | ok txs => rw [ht] at h; injection h with h'; subst h'; rfl
  rw [hcard]
  exact extract_card_shape (Chase.extract_text_from_pdf d)

/-- Witness for C7_card_last4_shape on a concrete document. -/
theorem C7_witness :
    s2l "1234" = [] ∨
      ((s2l "1234").length = 4 ∧ (s2l "1234").all Char.isDigit = true) :=
  C7_card_last4_shape ⟨[⟨some (s2l "Account ending in 1234"), []⟩]⟩
    ⟨s2l "Chase", s2l "1234", [], [], 0, []⟩ rfl

/-! ## Claim C8 -/

theorem tablesToTransactions_eq_flatten (ts : List Table) :
    tablesToTransactions ts
      = ((ts.filter fun tb => decide (2 ≤ tb.length)).flatten).filterMap
          processRow := by
  induction ts with
  | nil => rfl
  | cons t ts ih =>
    by_cases h2 : 2 ≤ t.length
    · simp [tablesToTransactions, rowsToTransactions, List.filter_cons, h2, ih,
        List.filterMap_append]
    · simp [tablesToTransactions, List.filter_cons, h2, ih]

/-- Claim C8: every transaction produced by a successful `parse` has a
non-empty date, a non-empty description, and an amount that is the result of
a successful float parse, and the transaction list is exactly the in-order
filter-map of the row-acceptance function over the rows of the accepted
first-page tables, flattened table by table — scan order, no deduplication,
no sorting. -/
theorem C8_transaction_invariants (d : Pdf) (p : Page) (rest : List Page)
    (sd : StatementData) (hp : d.pages = p :: rest)
    (h : Chase.parse d = Except.ok sd) :
    (∀ tx ∈ sd.transactions,
      tx.date ≠ [] ∧ tx.description ≠ [] ∧ ∃ s, pyFloat s = some tx.amount) ∧
    sd.transactions
      = ((p.tables.filter fun tb => decide (2 ≤ tb.length)).flatten).filterMap
          processRow := by
  have htrans : sd.transactions = tablesToTransactions p.tables := by
    unfold Chase.parse at h
    rw [show Chase.extract_transactions d
        = Except.ok (tablesToTransactions p.tables) by
      rw [Chase.extract_transactions, hp]] at h
    injection h with h'
    subst h'
    rfl
  constructor
  · intro tx hmem
    rw [htrans] at hmem
    obtain ⟨row, hrow⟩ := mem_tablesToTransactions _ _ hmem
    have := processRow_some row tx hrow
    exact ⟨this.2.2.1, this.2.2.2.1, this.2.2.2.2⟩
  · rw [htrans]
    exact tablesToTransactions_eq_flatten p.tables

/-- Witness for C8_transaction_invariants on a concrete document. -/
theorem C8_witness :
    (∀ tx ∈ [(⟨s2l "01/05/2024", s2l "Coffee Shop", mkRat 45 10⟩ : Transaction)],
      tx.date ≠ [] ∧ tx.description ≠ [] ∧ ∃ s, pyFloat s = some tx.amount) ∧
    [(⟨s2l "01/05/2024", s2l "Coffee Shop", mkRat 45 10⟩ : Transaction)]
      = ((([[[some (s2l "Date"), some (s2l "Description"), some (s2l "Amount")],
            [some (s2l "01/05/2024"), some (s2l "Coffee Shop"), some (s2l "$4.50")]]] :
          List Table).filter fun tb => decide (2 ≤ tb.length)).flatten).filterMap
          processRow :=
  C8_transaction_invariants
    ⟨[⟨none, [[[some (s2l "Date"), some (s2l "Description"), some (s2l "Amount")],
        [some (s2l "01/05/2024"), some (s2l "Coffee Shop"), some (s2l "$4.50")]]]⟩]⟩
    ⟨none, [[[some (s2l "Date"), some (s2l "Description"), some (s2l "Amount")],
        [some (s2l "01/05/2024"), some (s2l "Coffee Shop"), some (s2l "$4.50")]]]⟩
    [] ⟨s2l "Chase", [], [], [], 0,
        [⟨s2l "01/05/2024", s2l "Coffee Shop", mkRat 45 10⟩]⟩ rfl rfl

/-! ## Claim C9 -/

theorem foldl_textStep_congr (l₁ : List Page) :
    ∀ (l₂ : List Page), l₁.map Page.text = l₂.map Page.text →
      ∀ acc, l₁.foldl textStep acc = l₂.foldl textStep acc := by
  induction l₁ with
  | nil =>
    intro l₂ h acc
    cases l₂ with
    | nil => rfl
    | cons q l₂' => simp at h
  | cons p l ih =>
    intro l₂ h acc
    cases l₂ with
    | nil => simp at h
    | cons q l₂' =>
      simp only [List.map_cons, List.cons.injEq] at h
      obtain ⟨hpq, hrest⟩ := h
      simp only [List.foldl_cons]
      rw [show textStep acc p = textStep acc q by simp [textStep, hpq]]
      exact ih l₂' hrest _

/-- Claim C9: `parse` is a pure function of the extracted page texts and the
first page's extracted tables — two documents that agree on those (even if
they differ elsewhere, e.g. in later pages' tables) parse to structurally
equal results; in particular parsing the same unmodified document twice
gives equal `StatementData`. -/
theorem C9_deterministic (d₁ d₂ : Pdf)
    (htext : d₁.pages.map Page.text = d₂.pages.map Page.text)
    (htables : d₁.pages.head?.map Page.tables = d₂.pages.head?.map Page.tables) :
    Chase.parse d₁ = Chase.parse d₂ := by
  have htxt : Chase.extract_text_from_pdf d₁ = Chase.extract_text_from_pdf d₂ :=
    foldl_textStep_congr d₁.pages d₂.pages htext []
  have htrans : Chase.extract_transactions d₁ = Chase.extract_transactions d₂ := by
    cases h₁ : d₁.pages with
    | nil =>
      cases h₂ : d₂.pages with
      | nil => rw [Chase.extract_transactions, Chase.extract_transactions, h₁, h₂]
      | cons q l₂ => rw [h₁, h₂] at htext; simp at htext
    | cons p l₁ =>
      cases h₂ : d₂.pages with
      | nil => rw [h₁, h₂] at htext; simp at htext
      | cons q l₂ =>
        have htb : p.tables = q.tables := by
          rw [h₁, h₂] at htables
          simpa using htables
        rw [Chase.extract_transactions, Chase.extract_transactions, h₁, h₂]
        show Except.ok (tablesToTransactions p.tables)
          = Except.ok (tablesToTransactions q.tables)
        rw [htb]
  unfold Chase.parse
  rw [htxt, htrans]

/-- Witness for C9_deterministic: two documents with identical page texts and
identical first-page tables, differing in a later page's tables, parse
identically. -/
theorem C9_witness :
    Chase.parse ⟨[⟨some (s2l "hi"), []⟩, ⟨none, [[]]⟩]⟩
      = Chase.parse ⟨[⟨some (s2l "hi"), []⟩, ⟨none, []⟩]⟩ :=
  C9_deterministic ⟨[⟨some (s2l "hi"), []⟩, ⟨none, [[]]⟩]⟩
    ⟨[⟨some (s2l "hi"), []⟩, ⟨none, []⟩]⟩ rfl rfl

/-! ## Claim C3 -/

/-- The substring `****5678` of the claim. -/
def star5678 : List Char := ['*', '*', '*', '*', '5', '6', '7', '8']

/-- The substring `ending in 1234` of the claim. -/
def ending1234 : List Char :=
  ['e', 'n', 'd', 'i', 'n', 'g', ' ', 'i', 'n', ' ', '1', '2', '3', '4']

theorem star4At_cons_ne (x : Char) (l : List Char) (h : x ≠ '*') :
    star4At (x :: l) = none := by
  match l with
  | [] => rfl
  | [_] => rfl
  | [_, _] => rfl
  | b :: c :: d :: rest => simp [star4At, h]

theorem scanFor_star_append (t₁ tail : List Char) (h : ∀ c ∈ t₁, c ≠ '*') :
    scanFor star4At (t₁ ++ tail) = scanFor star4At tail := by
  induction t₁ with
  | nil => rfl
  | cons c t ih =>
    rw [List.cons_append,
      scanFor_cons_none star4At c (t ++ tail)
        (star4At_cons_ne c (t ++ tail) (h c (List.mem_cons_self c _)))]
    exact ih fun x hx => h x (List.mem_cons_of_mem c hx)

theorem lit4At_ei_cons_ne (x : Char) (l : List Char) (h : asciiLower x ≠ 'e') :
    lit4At ei_lit (x :: l) = none := by
  simp [lit4At, ei_lit, stripCi, h]

theorem scanFor_ei_append (t₁ tail : List Char)
    (h : ∀ c ∈ t₁, asciiLower c ≠ 'e') :
    scanFor (lit4At ei_lit) (t₁ ++ tail) = scanFor (lit4At ei_lit) tail := by
  induction t₁ with
  | nil => rfl
  | cons c t ih =>
    rw [List.cons_append,
      scanFor_cons_none (lit4At ei_lit) c (t ++ tail)
        (lit4At_ei_cons_ne c (t ++ tail) (h c (List.mem_cons_self c _)))]
    exact ih fun x hx => h x (List.mem_cons_of_mem c hx)

/-- Counterexample to claim C3: the universally quantified parts fail.  The
text `"****1111 ****5678 ending in 1234"` contains both `"****5678"` and
`"ending in 1234"` yet extraction returns `"1111"` (the leftmost asterisk
match), and the asterisk-free text `"ending in 0000 and ending in 1234"`
contains `"ending in 1234"` yet returns `"0000"` (the leftmost `ending in`
match). -/
theorem C3_counterexample :
    Chase.extract_card_last_4 (s2l "****1111 ****5678 ending in 1234")
      = s2l "1111" ∧
    hasSub (s2l "****5678") (s2l "****1111 ****5678 ending in 1234") = true ∧
    hasSub (s2l "ending in 1234") (s2l "****1111 ****5678 ending in 1234") = true ∧
    s2l "1111" ≠ s2l "5678" ∧
    Chase.extract_card_last_4 (s2l "ending in 0000 and ending in 1234")
      = s2l "0000" ∧
    hasSub (s2l "ending in 1234") (s2l "ending in 0000 and ending in 1234") = true ∧
    scanFor star4At (s2l "ending in 0000 and ending in 1234") = none ∧
    s2l "0000" ≠ s2l "1234" := by
  refine ⟨by decide, by decide, by decide, by decide, by decide, by decide,
    by decide, by decide⟩

/-- Claim C3 as amended: the four patterns are tried in the fixed order
asterisk-prefix, `ending in`, `card ending`, `account ending`,
case-insensitively, and the first matching pattern's leftmost captured
4-digit group is returned (empty string when none match).  A text of the
form `t₁ ++ "****5678" ++ t₂` with no asterisk in `t₁` yields `"5678"`
regardless of any `"ending in"` text elsewhere; a text of the form
`t₁ ++ "ending in 1234" ++ t₂` on which the asterisk pattern has no match
and whose prelude `t₁` contains no letter `e` yields `"1234"`. -/
theorem C3_amended :
    (∀ t₁ t₂ : List Char, (∀ c ∈ t₁, c ≠ '*') →
      Chase.extract_card_last_4 (t₁ ++ (star5678 ++ t₂)) = s2l "5678") ∧
    (∀ t₁ t₂ : List Char,
      scanFor star4At (t₁ ++ (ending1234 ++ t₂)) = none →
      (∀ c ∈ t₁, asciiLower c ≠ 'e') →
      Chase.extract_card_last_4 (t₁ ++ (ending1234 ++ t₂)) = s2l "1234") ∧
    (∀ (t g : List Char), scanFor star4At t = some g →
      Chase.extract_card_last_4 t = g) ∧
    (∀ t : List Char, scanFor star4At t = none →
      scanFor (lit4At ei_lit) t = none → scanFor (lit4At ce_lit) t = none →
      scanFor (lit4At ae_lit) t = none →
      Chase.extract_card_last_4 t = []) := by
  refine ⟨?_, ?_, ?_, ?_⟩
  · intro t₁ t₂ h
    have hs : scanFor star4At (t₁ ++ (star5678 ++ t₂)) = some (s2l "5678") := by
      rw [scanFor_star_append t₁ (star5678 ++ t₂) h]
      rfl
    rw [Chase.extract_card_last_4, hs]
  · intro t₁ t₂ hstar h
    have he : scanFor (lit4At ei_lit) (t₁ ++ (ending1234 ++ t₂))
        = some (s2l "1234") := by
      rw [scanFor_ei_append t₁ (ending1234 ++ t₂) h]
      rfl
    rw [Chase.extract_card_last_4, hstar, he]
  · intro t g h
    rw [Chase.extract_card_last_4, h]
  · intro t h1 h2 h3 h4
    rw [Chase.extract_card_last_4, h1, h2, h3, h4]

/-- Witness for C3_amended at concrete texts. -/
theorem C3_witness :
    Chase.extract_card_last_4 (s2l "ending in 1234 then " ++ (star5678 ++ []))
      = s2l "5678" ∧
    Chase.extract_card_last_4 (s2l "Card " ++ (ending1234 ++ []))
      = s2l "1234" ∧
    Chase.extract_card_last_4 (s2l "****0000") = s2l "0000" ∧
    Chase.extract_card_last_4 (s2l "no card here") = [] :=
  ⟨C3_amended.1 (s2l "ending in 1234 then ") [] (by decide),
   C3_amended.2.1 (s2l "Card ") [] (by decide) (by decide),
   C3_amended.2.2.1 (s2l "****0000") (s2l "0000") (by decide),
   C3_amended.2.2.2 (s2l "no card here") (by decide) (by decide) (by decide)
     (by decide)⟩

/-! ## Claim C4 -/

theorem containsCi_of_stripCi_append (p : List Char) :
    ∀ (q l r : List Char), stripCi (p ++ q) l = some r →
      containsCi q l = true := by
  induction p with
  | nil =>
    intro q l r h
    cases l with
    | nil => simp only [containsCi]; rw [List.nil_append] at h; simp [h]
    | cons c cs => simp only [containsCi]; rw [List.nil_append] at h; simp [h]
  | cons x p ih =>
    intro q l r h
    cases l with
    | nil => rw [List.cons_append] at h; exact absurd h (by simp [stripCi])
    | cons c cs =>
      rw [List.cons_append] at h
      simp only [stripCi] at h
      split_ifs at h with hx
      have := ih q cs r h
      simp [containsCi, this]

theorem containsCi_bal_of_scan (pre pat : List Char)
    (hpat : pat = pre ++ bal_word) :
    ∀ (t g : List Char), scanFor (balanceAt pat) t = some g →
      containsCi bal_word t = true := by
  intro t
  induction t with
  | nil =>
    intro g h
    simp only [scanFor, balanceAt] at h
    obtain ⟨r, hr, -⟩ := Option.bind_eq_some.mp h
    exact containsCi_of_stripCi_append pre bal_word [] r (hpat ▸ hr)
  | cons c t ih =>
    intro g h
    simp only [scanFor] at h
    cases hf : balanceAt pat (c :: t) with
    | some g' =>
      rw [balanceAt] at hf
      obtain ⟨r, hr, -⟩ := Option.bind_eq_some.mp hf
      exact containsCi_of_stripCi_append pre bal_word (c :: t) r (hpat ▸ hr)
    | none =>
      rw [hf] at h
      have := ih g h
      simp [containsCi, this]

/-- Counterexample to claim C4: the result can be `0.0` even though a
pattern both matches and parses — on the text `"balance: 0"` the generic
`balance` pattern matches, its captured group `"0"` parses to `0.0`, and the
result is `0.0`; so "result is 0.0 exactly when no pattern both matches and
parses" fails in the only-if direction. -/
theorem C4_counterexample :
    Chase.extract_total_balance (s2l "balance: 0") = 0 ∧
    scanFor (balanceAt bal_word) (s2l "balance: 0") = some (s2l "0") ∧
    pyFloat (stripCommas (s2l "0")) = some (mkRat 0 1) := by
  refine ⟨by decide, by decide, by decide⟩

theorem balanceFromPatterns_all_fail (ps : List (List Char)) :
    ∀ t : List Char,
      (∀ p ∈ ps, ∀ g, scanFor (balanceAt p) t = some g →
        pyFloat (stripCommas g) = none) →
      Chase.balanceFromPatterns ps t = 0 := by
  induction ps with
  | nil => intro t h; rfl
  | cons p ps ih =>
    intro t h
    rw [Chase.balanceFromPatterns]
    cases hs : scanFor (balanceAt p) t with
    | none => exact ih t fun q hq => h q (List.mem_cons_of_mem p hq)
    | some g =>
      simp only [h p (List.mem_cons_self p _) g hs]
      exact ih t fun q hq => h q (List.mem_cons_of_mem p hq)

/-- Claim C4 as amended: if a balance pattern matches but its captured text
fails to parse as a decimal after comma removal, extraction continues with
the next pattern in order rather than aborting; the result is `0.0` if no
pattern both matches and parses (though `0.0` can also arise from a matched
and parsed zero balance); and for every text with no (case-insensitive)
occurrence of the word `balance` — which every pattern requires — the result
is `0.0` and no exception is raised. -/
theorem C4_amended :
    (∀ t g : List Char, scanFor (balanceAt tb_lit) t = some g →
      pyFloat (stripCommas g) = none →
      Chase.extract_total_balance t
        = Chase.balanceFromPatterns [cb_lit, bal_word] t) ∧
    (∀ t : List Char,
      (∀ g, scanFor (balanceAt tb_lit) t = some g →
        pyFloat (stripCommas g) = none) →
      (∀ g, scanFor (balanceAt cb_lit) t = some g →
        pyFloat (stripCommas g) = none) →
      (∀ g, scanFor (balanceAt bal_word) t = some g →
        pyFloat (stripCommas g) = none) →
      Chase.extract_total_balance t = 0) ∧
    (∀ t : List Char, containsCi bal_word t = false →
      Chase.extract_total_balance t = 0) := by
  refine ⟨?_, ?_, ?_⟩
  · intro t g h1 h2
    simp only [Chase.extract_total_balance, Chase.balanceFromPatterns, h1, h2]
  · intro t h1 h2 h3
    refine balanceFromPatterns_all_fail [tb_lit, cb_lit, bal_word] t ?_
    intro p hp
    rcases (by simpa using hp : p = tb_lit ∨ p = cb_lit ∨ p = bal_word) with
      rfl | rfl | rfl
    · exact h1
    · exact h2
    · exact h3
  · intro t hc
    have h1 : scanFor (balanceAt tb_lit) t = none := by
      cases hs : scanFor (balanceAt tb_lit) t with
      | none => rfl
      | some g =>
        exact absurd
          (containsCi_bal_of_scan ['t', 'o', 't', 'a', 'l', ' '] tb_lit rfl t g hs)
          (by simp [hc])
    have h2 : scanFor (balanceAt cb_lit) t = none := by
      cases hs : scanFor (balanceAt cb_lit) t with
      | none => rfl
      | some g =>
        exact absurd
          (containsCi_bal_of_scan ['c', 'u', 'r', 'r', 'e', 'n', 't', ' ']
            cb_lit rfl t g hs)
          (by simp [hc])
    have h3 : scanFor (balanceAt bal_word) t = none := by
      cases hs : scanFor (balanceAt bal_word) t with
      | none => rfl
      | some g =>
        exact absurd (containsCi_bal_of_scan [] bal_word rfl t g hs)
          (by simp [hc])
    simp only [Chase.extract_total_balance, Chase.balanceFromPatterns, h1, h2, h3]

/-- Witness for C4_amended at concrete texts: a matched but unparseable
capture (a bare comma) falls through to the next pattern; a text on which
every pattern's capture fails to parse yields 0; a text with no occurrence
of `balance` yields 0. -/
theorem C4_witness :
    Chase.extract_total_balance (s2l "total balance: , current balance: 5")
      = Chase.balanceFromPatterns [cb_lit, bal_word]
          (s2l "total balance: , current balance: 5") ∧
    Chase.extract_total_balance (s2l "balance: ,") = 0 ∧
    Chase.extract_total_balance (s2l "no money at all") = 0 := by
  refine ⟨C4_amended.1 (s2l "total balance: , current balance: 5") [',']
      (by decide) (by decide), ?_, ?_⟩
  · refine C4_amended.2.1 (s2l "balance: ,") ?_ ?_ ?_
    · intro g hg
      rw [(by decide : scanFor (balanceAt tb_lit) (s2l "balance: ,") = none)] at hg
      cases hg
    · intro g hg
      rw [(by decide : scanFor (balanceAt cb_lit) (s2l "balance: ,") = none)] at hg
      cases hg
    · intro g hg
      rw [(by decide : scanFor (balanceAt bal_word) (s2l "balance: ,")
          = some [','])] at hg
      injection hg with hg'
      subst hg'
      decide
  · exact C4_amended.2.2 (s2l "no money at all") (by decide)
